import Mathlib

/-!
Shallow embedding of `src/news.py` (news aggregation and PDF layout).

Python strings are modelled as `List Char`; the ReportLab width measure
`canvas.stringWidth(s, font, size)` is modelled as an abstract function
`List Char → Nat` (the spec only requires it to be deterministic and
monotonic, and allows an approximate average-character-width model).
The stateful canvas drawing calls of `create_pdf` are modelled as a trace
of emitted instructions, each paired with the vertical cursor `y` at the
moment of emission.
-/

namespace News

/-- Python `str.split()` splits on whitespace and drops empty pieces. -/
def isWsChar (c : Char) : Bool := c.isWhitespace

/-- Worker for `pySplit`: `acc` is the (possibly empty) word currently
being accumulated, in order. -/
def pySplitAux : List Char → List Char → List (List Char)
  | [], acc => if acc = [] then [] else [acc]
  | c :: s, acc =>
      if isWsChar c then
        if acc = [] then pySplitAux s [] else acc :: pySplitAux s []
      else pySplitAux s (acc ++ [c])

/-- Model of Python `text.split()` (news.py line 65). -/
def pySplit (s : List Char) : List (List Char) := pySplitAux s []

/-- Model of Python `str.strip()`: drop leading and trailing whitespace
(news.py lines 73 and 76). -/
def pyStrip (s : List Char) : List Char :=
  (((s.dropWhile isWsChar).reverse.dropWhile isWsChar)).reverse

/-- A word produced by `split()`: nonempty and free of whitespace. -/
def isWord (w : List Char) : Prop := w ≠ [] ∧ ∀ c ∈ w, isWsChar c = false

/-- The accumulator string built by the wrapping loop: each word is
followed by one space, exactly as `line += word + " "` builds it. -/
def joinSp (ws : List (List Char)) : List Char :=
  (ws.map (fun w => w ++ [' '])).flatten

/-- The word loop of `draw_wrapped_text` (news.py lines 69-76): `line` is
the accumulator string; a word that does not pass the width check closes
the current accumulator (stripped) and starts a fresh one. -/
def wrapAux (wf : List Char → Nat) (maxW : Nat) :
    List (List Char) → List Char → List (List Char)
  | [], line => if line = [] then [] else [pyStrip line]
  | w :: ws, line =>
      if wf (line ++ w ++ [' ']) ≤ maxW then
        wrapAux wf maxW ws (line ++ w ++ [' '])
      else
        pyStrip line :: wrapAux wf maxW ws (w ++ [' '])

/-- The list of wrapped lines computed by `draw_wrapped_text` for a given
width measure `wf`, width budget and text. -/
def wrapLines (wf : List Char → Nat) (maxW : Nat) (text : List Char) :
    List (List Char) :=
  wrapAux wf maxW (pySplit text) []

/-- The approximate average-character-width model the spec allows: every
character one unit wide.  Monotonic and deterministic. -/
def charW (s : List Char) : Nat := s.length

/-- A deterministic, monotonic width measure under which the empty string
has positive width. -/
def cexW (s : List Char) : Nat := s.length + 1

/-- The draw instructions issued by `create_pdf` to the ReportLab canvas:
font changes, absolute-position text, clickable link rectangles, and page
breaks (`showPage`). -/
inductive Instr where
  | setFont (font : String) (size : Nat)
  | text (x y : Int) (content : List Char)
  | link (url : List Char) (x1 y1 x2 y2 : Int)
  | showPage
deriving DecidableEq

/-- The drawing loop of `draw_wrapped_text` (news.py lines 78-80): draw
each line at the cursor, then lower the cursor by `line_height`.  Each
emitted instruction is paired with the cursor value at emission. -/
def drawLinesT (x lineH : Int) : List (List Char) → Int → List (Instr × Int) × Int
  | [], y => ([], y)
  | l :: ls, y =>
      let r := drawLinesT x lineH ls (y - lineH)
      ((Instr.text x y l, y) :: r.1, r.2)

/-- Model of `draw_wrapped_text` (news.py lines 51-82): wrap `text`, draw
the lines, return the emitted trace and the final cursor. -/
def draw_wrapped_text (wf : List Char → Nat) (text : List Char)
    (x y : Int) (maxW : Nat) (lineH : Int) : List (Instr × Int) × Int :=
  drawLinesT x lineH (wrapLines wf maxW text) y

/-- The canvas's current font state, set by `canvas.setFont`. -/
structure CanvasState where
  fontName : String
  fontSize : Nat
deriving DecidableEq

/-- The width check at news.py line 70 queries the metric family `sw` at
the fixed font "Helvetica" size 10, never at the canvas's current font
state, so the canvas state is an unused argument of the line computation. -/
def draw_wrapped_text_canvas (sw : String → Nat → List Char → Nat)
    (_canvasFont : CanvasState) (text : List Char) (maxW : Nat) : List (List Char) :=
  wrapLines (sw ("Helvetica") 10) maxW text

/-- A news record as assembled by `NewsFetcher.fetch_news` (news.py
lines 38-44): five string fields, all always present. -/
structure NewsRecord where
  title : List Char
  link : List Char
  summary : List Char
  published : List Char
  source : List Char
deriving DecidableEq

/-- ReportLab `letter` page height: 792 points (width is 612). -/
def page_height : Int := 792

/-- news.py line 95. -/
def left_margin : Int := 50

/-- news.py line 96. -/
def right_margin : Int := 20

/-- `text_width = width - left_margin - right_margin` (news.py line 97):
612 - 50 - 20 = 542. -/
def text_width : Nat := 542

/-- The page-break test of the assembler (news.py line 106):
`if y < left_margin + 50`. -/
def needs_break (y : Int) : Bool := decide (y < left_margin + 50)

/-- The cursor start `height - left_margin` (news.py lines 98 and 109). -/
def page_top_y : Int := page_height - left_margin

/-- The static link label (news.py line 120). -/
def readMoreText : List Char := ("Read more").toList

/-- The per-article body of the `create_pdf` loop (news.py lines 112-127):
title block (bold 12, line height 14), source and published blocks
(Helvetica 10, line height 12), the "Read more" label with its link
rectangle `(left_margin, y-2, left_margin+50, y+10)` followed by a 15-unit
cursor drop, then the summary block.  Returns the emitted trace
(instructions paired with the cursor at emission) and the cursor after the
summary. -/
def renderArticleT (wf : List Char → Nat) (a : NewsRecord) (y : Int) :
    List (Instr × Int) × Int :=
  let t1 := draw_wrapped_text wf (("Title: ").toList ++ a.title)
    left_margin y text_width 14
  let t2 := draw_wrapped_text wf (("Source: ").toList ++ a.source)
    left_margin t1.2 text_width 12
  let t3 := draw_wrapped_text wf (("Published: ").toList ++ a.published)
    left_margin t2.2 text_width 12
  let y3 := t3.2
  let t4 := draw_wrapped_text wf (("Summary: ").toList ++ a.summary)
    left_margin (y3 - 15) text_width 12
  ((Instr.setFont ("Helvetica-Bold") 12, y) :: t1.1
     ++ (Instr.setFont ("Helvetica") 10, t1.2) :: t2.1
     ++ t3.1
     ++ (Instr.setFont ("Helvetica") 10, y3)
        :: (Instr.text left_margin y3 readMoreText, y3)
        :: (Instr.link a.link left_margin (y3 - 2) (left_margin + 50) (y3 + 10), y3)
        :: t4.1,
   t4.2)

/-- The record loop of `create_pdf` (news.py lines 105-129): page-break
check at record boundaries (break emits `showPage`, re-sets the font and
resets the cursor to the page top), article body, then a 20-unit
inter-article gap. -/
def create_pdf_loop (wf : List Char → Nat) : List NewsRecord → Int → List (Instr × Int)
  | [], _ => []
  | a :: rest, y =>
      let s := if needs_break y then
          (([(Instr.showPage, y), (Instr.setFont ("Helvetica") 12, page_top_y)],
            page_top_y) : List (Instr × Int) × Int)
        else ([], y)
      let r := renderArticleT wf a s.2
      s.1 ++ r.1 ++ create_pdf_loop wf rest (r.2 - 20)

/-- Model of `create_pdf` (news.py lines 85-133): document title block at
the page top (cursor then drops by 30), then the record loop.  `c.save()`
emits no instruction the model tracks. -/
def create_pdf (wf : List Char → Nat) (news : List NewsRecord) : List (Instr × Int) :=
  (Instr.setFont ("Helvetica-Bold") 16, page_top_y)
    :: (Instr.text left_margin page_top_y (("News Articles").toList), page_top_y)
    :: create_pdf_loop wf news (page_top_y - 30)

/-- A parsed feed entry as `feedparser` presents it: `title` and `link`
are accessed unconditionally (news.py lines 39-40), while `summary` and
`published` are optional (lines 41-42). -/
structure FeedEntry where
  title : List Char
  link : List Char
  summary : Option (List Char)
  published : Option (List Char)
deriving DecidableEq

/-- A parsed feed: an optional feed title (news.py line 43) and entries. -/
structure Feed where
  feedTitle : Option (List Char)
  entries : List FeedEntry
deriving DecidableEq

/-- One record of the dictionary literal at news.py lines 38-44: missing
`summary`/`published` default to the empty string, a missing feed title
defaults to the string "Unknown Source". -/
def recordOfEntry (ft : Option (List Char)) (e : FeedEntry) : NewsRecord :=
  { title := e.title
    link := e.link
    summary := e.summary.getD []
    published := e.published.getD []
    source := ft.getD (("Unknown Source").toList) }

/-- Restricted model of `NewsFetcher.fetch_news` (news.py lines 26-48)
together with its error log, for feeds whose entries all carry `title`
and `link` (so the entry loop cannot raise): each feed URL either raises
at parse time (`Except.error`, caught, message printed/logged, loop
continues) or yields all its entries' records. The general model with
the incremental entry loop is `fetch_news_runL`; `fetch_news_run_agrees`
shows this is its raise-free restriction. -/
def fetch_newsL : List (Except (List Char) Feed) → List NewsRecord × List (List Char)
  | [] => ([], [])
  | Except.error m :: rest =>
      let r := fetch_newsL rest
      (r.1, m :: r.2)
  | Except.ok f :: rest =>
      let r := fetch_newsL rest
      (f.entries.map (recordOfEntry f.feedTitle) ++ r.1, r.2)

/-- The record list returned by `NewsFetcher.fetch_news`. -/
def fetch_news (feeds : List (Except (List Char) Feed)) : List NewsRecord :=
  (fetch_newsL feeds).1

/-- The single test record of the spec's end-to-end scenario. -/
def recA : NewsRecord :=
  { title := ("A").toList
    link := ("http://x").toList
    summary := []
    published := []
    source := ("S").toList }

/-- A feed entry with every optional field missing. -/
def entryA : FeedEntry :=
  { title := ("A").toList
    link := ("http://x").toList
    summary := none
    published := none }

/-- A feed whose own title is missing. -/
def feedNoTitle : Feed := { feedTitle := none, entries := [entryA] }

/-- The record `fetch_news` builds from `feedNoTitle`. -/
def recU : NewsRecord := recordOfEntry none entryA

/-- A raw feedparser entry: `entry.title` and `entry.link` are attribute
accesses that raise when the key is missing (news.py lines 39-40), so in
the general model all four fields are optional. -/
structure RawEntry where
  title : Option (List Char)
  link : Option (List Char)
  summary : Option (List Char)
  published : Option (List Char)
deriving DecidableEq

/-- A parsed raw feed: optional feed title (news.py line 43), raw
entries. -/
structure RawFeed where
  feedTitle : Option (List Char)
  entries : List RawEntry
deriving DecidableEq

/-- Building one record from a raw entry: raises (`none`) exactly when
`title` or `link` is missing; otherwise the dict literal of news.py
lines 38-44, via `recordOfEntry`. -/
def recordOfRaw (ft : Option (List Char)) (e : RawEntry) : Option NewsRecord :=
  match e.title, e.link with
  | some t, some l =>
      some (recordOfEntry ft
        { title := t, link := l, summary := e.summary, published := e.published })
  | _, _ => none

/-- The entry loop of news.py lines 37-45 under the surrounding `try`:
records are appended one at a time; the first entry whose `title` or
`link` access raises aborts the loop for this feed — the records already
appended are kept — and the exception is caught by the handler at
line 46. Returns the appended records and whether the loop raised. -/
def processEntries (ft : Option (List Char)) : List RawEntry → List NewsRecord × Bool
  | [] => ([], false)
  | e :: rest =>
      match recordOfRaw ft e with
      | none => ([], true)
      | some r =>
          let p := processEntries ft rest
          (r :: p.1, p.2)

/-- Stand-in for the message printed at news.py line 47 when a feed's
entry loop raises (the exact exception text is irrelevant here). -/
def entryErrMsg : List Char := ("AttributeError").toList

/-- General model of `NewsFetcher.fetch_news` (news.py lines 26-48) with
its error log: the per-feed `try` wraps both the parse and the
incremental entry loop, so a feed either raises at parse time
(`Except.error`: zero records, message logged) or parses to a `RawFeed`
whose entries are appended until one raises (earlier records kept,
error logged). The loop always continues with the next feed. -/
def fetch_news_runL :
    List (Except (List Char) RawFeed) → List NewsRecord × List (List Char)
  | [] => ([], [])
  | Except.error m :: rest =>
      let r := fetch_news_runL rest
      (r.1, m :: r.2)
  | Except.ok f :: rest =>
      let p := processEntries f.feedTitle f.entries
      let r := fetch_news_runL rest
      (p.1 ++ r.1, if p.2 then entryErrMsg :: r.2 else r.2)

/-- The record list returned by `NewsFetcher.fetch_news` in the general
model. -/
def fetch_news_run (feeds : List (Except (List Char) RawFeed)) : List NewsRecord :=
  (fetch_news_runL feeds).1

/-- A `FeedEntry` (title and link present) viewed as a raw entry. -/
def rawOfEntry (e : FeedEntry) : RawEntry :=
  { title := some e.title, link := some e.link,
    summary := e.summary, published := e.published }

/-- A `Feed` viewed as a raw feed none of whose entries raise. -/
def rawOfFeed (f : Feed) : RawFeed :=
  { feedTitle := f.feedTitle, entries := f.entries.map rawOfEntry }

/-- A raw entry with title and link present. -/
def rawGood : RawEntry :=
  { title := some (("A").toList), link := some (("http://x").toList),
    summary := none, published := none }

/-- A raw entry whose `title` access raises. -/
def rawBad : RawEntry :=
  { title := none, link := some (("http://y").toList),
    summary := none, published := none }

/-- A feed that parses, yields one good entry, then raises on the
second entry. -/
def rawPartialFeed : RawFeed :=
  { feedTitle := some (("S").toList), entries := [rawGood, rawBad] }

/-- Instructions that draw visible/clickable content (text and links);
`setFont` and `showPage` draw nothing. -/
def isDraw : Instr → Bool
  | Instr.text _ _ _ => true
  | Instr.link _ _ _ _ _ => true
  | _ => false

def isShowPage : Instr → Bool
  | Instr.showPage => true
  | _ => false

/-- The sub-trace of drawing instructions, with their emission cursors. -/
def draws (t : List (Instr × Int)) : List (Instr × Int) :=
  t.filter (fun p => isDraw p.1)

/-- The sub-trace of drawing instructions and page breaks. -/
def pageTrace (t : List (Instr × Int)) : List (Instr × Int) :=
  t.filter (fun p => isDraw p.1 || isShowPage p.1)

/-- The one place two consecutive drawing instructions share a cursor: the
"Read more" label and the link rectangle bound right below it. -/
def rmPair : Instr → Instr → Bool
  | Instr.text _ _ c, Instr.link _ _ _ _ _ => decide (c = readMoreText)
  | _, _ => false

/-- Cursor relation between consecutive drawing instructions of one page:
strictly decreasing, except that the "Read more" label and its link share
the cursor. -/
def Rdraw (p q : Instr × Int) : Prop :=
  q.2 < p.2 ∨ (q.2 = p.2 ∧ rmPair p.1 q.1 = true)

/-- Step relation on the page trace: after a page break the cursor is
reset to the page top; within a page, `Rdraw`. -/
def stepOk (p q : Instr × Int) : Prop :=
  if isShowPage q.1 then True
  else if isShowPage p.1 then q.2 = page_top_y
  else Rdraw p q

/-- A page-break-free trace segment entered at cursor `y` and left at
cursor `yEnd`: its drawing cursors lie in `(yEnd, y]` and respect
`Rdraw`. -/
structure Seg (t : List (Instr × Int)) (y yEnd : Int) : Prop where
  chain : List.Chain' Rdraw (draws t)
  bounds : ∀ p ∈ draws t, yEnd < p.2 ∧ p.2 ≤ y
  noPage : ∀ p ∈ t, isShowPage p.1 = false

/-- Whether an instruction draws exactly the given text content. -/
def textHasContent (i : Instr) (c : List Char) : Bool :=
  match i with
  | Instr.text _ _ c2 => decide (c2 = c)
  | _ => false

lemma cexW_mono : ∀ s t : List Char, s.length ≤ t.length → cexW s ≤ cexW t :=
  fun _ _ h => Nat.succ_le_succ h

lemma charW_mono : ∀ s t : List Char, s.length ≤ t.length → charW s ≤ charW t :=
  fun _ _ h => h

lemma pySplitAux_word (w : List Char) (hw : ∀ c ∈ w, isWsChar c = false) :
    ∀ s acc, pySplitAux (w ++ s) acc = pySplitAux s (acc ++ w) := by
  induction w with
  | nil => intro s acc; simp
  | cons c w ih =>
      intro s acc
      have hc : isWsChar c = false := hw c (List.mem_cons_self c w)
      have hw' : ∀ d ∈ w, isWsChar d = false :=
        fun d hd => hw d (List.mem_cons_of_mem c hd)
      have h1 : pySplitAux ((c :: w) ++ s) acc = pySplitAux (w ++ s) (acc ++ [c]) := by
        simp [pySplitAux, hc]
      rw [h1, ih hw' s (acc ++ [c])]
      simp

lemma pySplitAux_allWs (t : List Char) :
    (∀ c ∈ t, isWsChar c = true) →
    ∀ acc, pySplitAux t acc = if acc = [] then [] else [acc] := by
  induction t with
  | nil => intro _ acc; rfl
  | cons c t ih =>
      intro ht acc
      have hc := ht c (List.mem_cons_self c t)
      have ht' : ∀ d ∈ t, isWsChar d = true :=
        fun d hd => ht d (List.mem_cons_of_mem c hd)
      by_cases ha : acc = []
      · subst ha; simp [pySplitAux, hc, ih ht' []]
      · simp [pySplitAux, hc, ha, ih ht' []]

lemma pySplitAux_append_ws (t : List Char) (ht : ∀ c ∈ t, isWsChar c = true) :
    ∀ (s : List Char) (acc : List Char), pySplitAux (s ++ t) acc = pySplitAux s acc := by
  intro s
  induction s with
  | nil =>
      intro acc
      simp only [List.nil_append]
      rw [pySplitAux_allWs t ht acc]; rfl
  | cons c s ih =>
      intro acc
      by_cases hc : isWsChar c = true
      · by_cases ha : acc = [] <;> simp [pySplitAux, hc, ha, ih]
      · have hc' : isWsChar c = false := by simpa using hc
        simp [pySplitAux, hc', ih]

lemma pySplitAux_dropWhile (s : List Char) :
    pySplitAux (s.dropWhile isWsChar) [] = pySplitAux s [] := by
  induction s with
  | nil => rfl
  | cons c s ih =>
      by_cases hc : isWsChar c = true
      · simp [List.dropWhile_cons, hc, pySplitAux, ih]
      · have hc' : isWsChar c = false := by simpa using hc
        simp [List.dropWhile_cons, hc']

lemma reverse_strip_decomp (r : List Char) :
    r.reverse = (r.dropWhile isWsChar).reverse ++ (r.takeWhile isWsChar).reverse := by
  conv_lhs => rw [← List.takeWhile_append_dropWhile (p := isWsChar) (l := r)]
  rw [List.reverse_append]

/-- Stripping whitespace from both ends does not change the word list. -/
lemma pySplit_pyStrip (s : List Char) : pySplit (pyStrip s) = pySplit s := by
  unfold pySplit pyStrip
  have hws : ∀ c ∈ ((s.dropWhile isWsChar).reverse.takeWhile isWsChar).reverse,
      isWsChar c = true := by
    intro c hcmem
    exact List.mem_takeWhile_imp (List.mem_reverse.mp hcmem)
  rw [← pySplitAux_dropWhile s]
  conv_rhs =>
    rw [← List.reverse_reverse (s.dropWhile isWsChar),
        reverse_strip_decomp ((s.dropWhile isWsChar).reverse)]
  rw [pySplitAux_append_ws _ hws]

lemma pySplitAux_words (s : List Char) :
    ∀ acc, (∀ c ∈ acc, isWsChar c = false) → ∀ w ∈ pySplitAux s acc, isWord w := by
  induction s with
  | nil =>
      intro acc hacc w hw
      by_cases ha : acc = []
      · simp [pySplitAux, ha] at hw
      · simp [pySplitAux, ha] at hw
        subst hw; exact ⟨ha, hacc⟩
  | cons c s ih =>
      intro acc hacc w hw
      by_cases hc : isWsChar c = true
      · by_cases ha : acc = []
        · rw [show pySplitAux (c :: s) acc = pySplitAux s [] from by
            simp [pySplitAux, hc, ha]] at hw
          exact ih [] (by simp) w hw
        · rw [show pySplitAux (c :: s) acc = acc :: pySplitAux s [] from by
            simp [pySplitAux, hc, ha]] at hw
          rcases List.mem_cons.mp hw with h | h
          · subst h; exact ⟨ha, hacc⟩
          · exact ih [] (by simp) w h
      · have hc' : isWsChar c = false := by simpa using hc
        rw [show pySplitAux (c :: s) acc = pySplitAux s (acc ++ [c]) from by
          simp [pySplitAux, hc']] at hw
        refine ih (acc ++ [c]) ?_ w hw
        intro d hd
        rcases List.mem_append.mp hd with h | h
        · exact hacc d h
        · simp at h; subst h; exact hc'

/-- Every piece produced by `split()` is a nonempty whitespace-free word. -/
lemma pySplit_words (s : List Char) : ∀ w ∈ pySplit s, isWord w :=
  pySplitAux_words s [] (by simp)

lemma pySplitAux_ne_nil (s : List Char) :
    ∀ acc, acc ≠ [] → pySplitAux s acc ≠ [] := by
  induction s with
  | nil => intro acc ha; simp [pySplitAux, ha]
  | cons c s ih =>
      intro acc ha
      by_cases hc : isWsChar c = true
      · simp [pySplitAux, hc, ha]
      · have hc' : isWsChar c = false := by simpa using hc
        simp only [pySplitAux, hc', Bool.false_eq_true, if_false]
        exact ih (acc ++ [c]) (by simp)

lemma pySplit_cons_ne_nil (c : Char) (s : List Char) (hc : isWsChar c = false) :
    pySplit (c :: s) ≠ [] := by
  unfold pySplit
  rw [show pySplitAux (c :: s) [] = pySplitAux s [c] from by simp [pySplitAux, hc]]
  exact pySplitAux_ne_nil s [c] (by simp)

lemma joinSp_append (ws vs : List (List Char)) :
    joinSp (ws ++ vs) = joinSp ws ++ joinSp vs := by
  simp [joinSp]

lemma joinSp_single (w : List Char) : joinSp [w] = w ++ [' '] := by
  simp [joinSp]

lemma joinSp_snoc (ws : List (List Char)) (w : List Char) :
    joinSp (ws ++ [w]) = joinSp ws ++ w ++ [' '] := by
  rw [joinSp_append, joinSp_single, List.append_assoc]

lemma joinSp_cons_ne_nil (w : List Char) (ws : List (List Char)) :
    joinSp (w :: ws) ≠ [] := by
  simp [joinSp]

lemma length_dropWhile_le' (p : Char → Bool) (l : List Char) :
    (l.dropWhile p).length ≤ l.length := by
  induction l with
  | nil => simp
  | cons c l ih =>
      by_cases hc : p c = true
      · simp only [List.dropWhile_cons, hc, if_true]
        exact le_trans ih (by simp)
      · have hc' : p c = false := by simpa using hc
        simp [List.dropWhile_cons, hc']

/-- `strip()` never lengthens a string (so a monotonic width measure never
measures the stripped line wider than the accumulator it came from). -/
lemma pyStrip_length_le (s : List Char) : (pyStrip s).length ≤ s.length := by
  unfold pyStrip
  calc (((s.dropWhile isWsChar).reverse.dropWhile isWsChar)).reverse.length
      = ((s.dropWhile isWsChar).reverse.dropWhile isWsChar).length := by
        rw [List.length_reverse]
    _ ≤ (s.dropWhile isWsChar).reverse.length := length_dropWhile_le' _ _
    _ = (s.dropWhile isWsChar).length := by rw [List.length_reverse]
    _ ≤ s.length := length_dropWhile_le' _ _

lemma dropWhile_cons_of_neg {p : Char → Bool} {c : Char} {l : List Char}
    (h : p c = false) : List.dropWhile p (c :: l) = c :: l := by
  simp [List.dropWhile_cons, h]

/-- Stripping the accumulator `word + " "` recovers the word itself. -/
lemma pyStrip_word_space (w : List Char) (hw : isWord w) : pyStrip (w ++ [' ']) = w := by
  obtain ⟨hne, hchars⟩ := hw
  unfold pyStrip
  have hfront : (w ++ [' ']).dropWhile isWsChar = w ++ [' '] := by
    cases w with
    | nil => exact absurd rfl hne
    | cons c w' =>
        have hc : isWsChar c = false := hchars c (List.mem_cons_self _ _)
        simpa using dropWhile_cons_of_neg (l := w' ++ [' ']) hc
  rw [hfront]
  have hrev : (w ++ [' ']).reverse = ' ' :: w.reverse := by simp
  rw [hrev]
  have hsp : isWsChar ' ' = true := by decide
  rw [show List.dropWhile isWsChar (' ' :: w.reverse) = List.dropWhile isWsChar w.reverse
    from by simp [List.dropWhile_cons, hsp]]
  have hback : List.dropWhile isWsChar w.reverse = w.reverse := by
    cases hwr : w.reverse with
    | nil => simp
    | cons d t =>
        have hd : d ∈ w := by
          have : d ∈ w.reverse := by rw [hwr]; exact List.mem_cons_self _ _
          exact List.mem_reverse.mp this
        exact dropWhile_cons_of_neg (hchars d hd)
  rw [hback, List.reverse_reverse]

/-- Splitting the accumulator string recovers exactly its words. -/
lemma pySplit_joinSp : ∀ (ws : List (List Char)), (∀ w ∈ ws, isWord w) →
    pySplit (joinSp ws) = ws := by
  intro ws
  induction ws with
  | nil => intro _; rfl
  | cons w ws ih =>
      intro h
      have hw := h w (List.mem_cons_self w ws)
      have hws : ∀ v ∈ ws, isWord v := fun v hv => h v (List.mem_cons_of_mem w hv)
      have hjoin : joinSp (w :: ws) = w ++ (' ' :: joinSp ws) := by
        simp [joinSp]
      rw [hjoin]
      unfold pySplit
      rw [pySplitAux_word w hw.2]
      have hsp : isWsChar ' ' = true := by decide
      rw [show pySplitAux (' ' :: joinSp ws) ([] ++ w) = w :: pySplitAux (joinSp ws) []
        from by simp [pySplitAux, hsp, hw.1]]
      rw [show pySplitAux (joinSp ws) [] = pySplit (joinSp ws) from rfl, ih hws]

lemma wrapAux_nil_pos (wf : List Char → Nat) (maxW : Nat) {line : List Char}
    (h : line = []) : wrapAux wf maxW [] line = [] := by
  simp only [wrapAux]; rw [if_pos h]

lemma wrapAux_nil_neg (wf : List Char → Nat) (maxW : Nat) {line : List Char}
    (h : line ≠ []) : wrapAux wf maxW [] line = [pyStrip line] := by
  simp only [wrapAux]; rw [if_neg h]

lemma wrapAux_cons_pos (wf : List Char → Nat) (maxW : Nat) {w line : List Char}
    (ws : List (List Char)) (h : wf (line ++ w ++ [' ']) ≤ maxW) :
    wrapAux wf maxW (w :: ws) line = wrapAux wf maxW ws (line ++ w ++ [' ']) := by
  simp only [wrapAux]; rw [if_pos h]

lemma wrapAux_cons_neg (wf : List Char → Nat) (maxW : Nat) {w line : List Char}
    (ws : List (List Char)) (h : ¬ wf (line ++ w ++ [' ']) ≤ maxW) :
    wrapAux wf maxW (w :: ws) line = pyStrip line :: wrapAux wf maxW ws (w ++ [' ']) := by
  simp only [wrapAux]; rw [if_neg h]

/-- Word bookkeeping of the wrapping loop: splitting every emitted line
back into words and concatenating recovers the pending word sequence. -/
lemma wrapAux_join (wf : List Char → Nat) (maxW : Nat) :
    ∀ (ws accW : List (List Char)),
      (∀ w ∈ ws, isWord w) → (∀ w ∈ accW, isWord w) →
      ((wrapAux wf maxW ws (joinSp accW)).map pySplit).flatten = accW ++ ws := by
  intro ws
  induction ws with
  | nil =>
      intro accW _ haccW
      cases accW with
      | nil => rw [show joinSp [] = [] from rfl, wrapAux_nil_pos wf maxW rfl]; rfl
      | cons a t =>
          have hne : joinSp (a :: t) ≠ [] := joinSp_cons_ne_nil a t
          rw [wrapAux_nil_neg wf maxW hne]
          simp [pySplit_pyStrip, pySplit_joinSp _ haccW]
  | cons w ws ih =>
      intro accW hws haccW
      have hw : isWord w := hws w (List.mem_cons_self _ _)
      have hws' : ∀ v ∈ ws, isWord v := fun v hv => hws v (List.mem_cons_of_mem _ hv)
      have haccW' : ∀ v ∈ accW ++ [w], isWord v := by
        intro v hv
        rcases List.mem_append.mp hv with h | h
        · exact haccW v h
        · simp at h; subst h; exact hw
      by_cases hfit : wf (joinSp accW ++ w ++ [' ']) ≤ maxW
      · rw [wrapAux_cons_pos wf maxW ws hfit]
        rw [← joinSp_snoc, ih (accW ++ [w]) hws' haccW']
        simp
      · rw [wrapAux_cons_neg wf maxW ws hfit]
        rw [← joinSp_single]
        rw [List.map_cons, List.flatten_cons, pySplit_pyStrip, pySplit_joinSp _ haccW,
            ih [w] hws' (by intro v hv; simp at hv; subst hv; exact hw)]
        simp

/-- A flushed line (`line.strip()`) satisfies the width bound, is a single
word of the input, or is empty. -/
lemma flush_ok (wf : List Char → Nat) (maxW : Nat)
    (hmono : ∀ s t : List Char, s.length ≤ t.length → wf s ≤ wf t)
    (Wa : List (List Char)) (accW : List (List Char))
    (haccW : ∀ w ∈ accW, w ∈ Wa ∧ isWord w)
    (hinv : accW = [] ∨ wf (joinSp accW) ≤ maxW ∨ ∃ w, accW = [w]) :
    wf (pyStrip (joinSp accW)) ≤ maxW ∨ pyStrip (joinSp accW) ∈ Wa ∨
      pyStrip (joinSp accW) = [] := by
  rcases hinv with h | h | ⟨w, h⟩
  · subst h; right; right; rfl
  · left; exact le_trans (hmono _ _ (pyStrip_length_le _)) h
  · subst h
    right; left
    rw [joinSp_single, pyStrip_word_space w (haccW w (by simp)).2]
    exact (haccW w (by simp)).1

/-- Width bookkeeping of the wrapping loop. -/
lemma wrapAux_width (wf : List Char → Nat) (maxW : Nat)
    (hmono : ∀ s t : List Char, s.length ≤ t.length → wf s ≤ wf t)
    (Wa : List (List Char)) :
    ∀ (ws accW : List (List Char)),
      (∀ w ∈ ws, w ∈ Wa ∧ isWord w) → (∀ w ∈ accW, w ∈ Wa ∧ isWord w) →
      (accW = [] ∨ wf (joinSp accW) ≤ maxW ∨ ∃ w, accW = [w]) →
      ∀ L ∈ wrapAux wf maxW ws (joinSp accW), wf L ≤ maxW ∨ L ∈ Wa ∨ L = [] := by
  intro ws
  induction ws with
  | nil =>
      intro accW _ haccW hinv L hL
      by_cases hne : joinSp accW = []
      · rw [wrapAux_nil_pos wf maxW hne] at hL
        simp at hL
      · rw [wrapAux_nil_neg wf maxW hne] at hL
        simp at hL; subst hL
        exact flush_ok wf maxW hmono Wa accW haccW hinv
  | cons w ws ih =>
      intro accW hws haccW hinv L hL
      have hw := hws w (List.mem_cons_self _ _)
      have hws' : ∀ v ∈ ws, v ∈ Wa ∧ isWord v :=
        fun v hv => hws v (List.mem_cons_of_mem _ hv)
      by_cases hfit : wf (joinSp accW ++ w ++ [' ']) ≤ maxW
      · rw [wrapAux_cons_pos wf maxW ws hfit] at hL
        rw [← joinSp_snoc] at hL
        refine ih (accW ++ [w]) hws' ?_ ?_ L hL
        · intro v hv
          rcases List.mem_append.mp hv with h | h
          · exact haccW v h
          · simp at h; subst h; exact hw
        · right; left; rw [joinSp_snoc]; exact hfit
      · rw [wrapAux_cons_neg wf maxW ws hfit] at hL
        rcases List.mem_cons.mp hL with h | h
        · subst h; exact flush_ok wf maxW hmono Wa accW haccW hinv
        · rw [← joinSp_single] at h
          refine ih [w] hws' ?_ ?_ L h
          · intro v hv; simp at hv; subst hv; exact hw
          · right; right; exact ⟨w, rfl⟩

lemma drawLinesT_snd (x lineH : Int) :
    ∀ (ls : List (List Char)) (y : Int),
      (drawLinesT x lineH ls y).2 = y - lineH * ls.length := by
  intro ls
  induction ls with
  | nil => intro y; simp [drawLinesT]
  | cons l ls ih =>
      intro y
      simp only [drawLinesT, ih (y - lineH), List.length_cons]
      push_cast
      ring

/-- C1 (amended): assuming the width measure is monotonic, every line the
wrapper emits measures within the budget, except a line that is a single
word of the input (allowed overflow) and except an empty line, which the
wrapper emits first when the first word alone overflows the budget. -/
theorem wrap_line_width_bound (wf : List Char → Nat) (maxW : Nat) (text : List Char)
    (hmono : ∀ s t : List Char, s.length ≤ t.length → wf s ≤ wf t) :
    ∀ L ∈ wrapLines wf maxW text, wf L ≤ maxW ∨ L ∈ pySplit text ∨ L = [] := by
  intro L hL
  refine wrapAux_width wf maxW hmono (pySplit text) (pySplit text) [] ?_ ?_ ?_ L ?_
  · intro w hw; exact ⟨hw, pySplit_words text w hw⟩
  · intro w hw; simp at hw
  · left; rfl
  · exact hL

/-- C1 witness: a concrete line of a concrete wrap run, via the theorem. -/
theorem wrap_line_width_bound_witness :
    charW (("ab").toList) ≤ 5 ∨ ("ab").toList ∈ pySplit (("ab cd").toList) ∨
      ("ab").toList = [] :=
  wrap_line_width_bound charW 5 (("ab cd").toList) charW_mono (("ab").toList) (by decide)

/-- C1 counterexample: under the monotonic width measure `cexW`
(monotonicity is `cexW_mono`) and budget 0, wrapping the text "a" emits
the empty line, which measures 1 > 0 yet is not a single word of the
input — so the claim's only stated exception does not cover it. -/
theorem wrap_line_width_cex :
    ([] : List Char) ∈ wrapLines cexW 0 (("a").toList) ∧ 0 < cexW [] ∧
      ¬ ([] : List Char) ∈ pySplit (("a").toList) := by
  decide

/-- C2: concatenating the whitespace-separated words of all wrapped lines,
in order, yields exactly the word sequence of the original text — no word
is dropped, duplicated, reordered, or split, for every width measure and
budget. -/
theorem wrap_preserves_words (wf : List Char → Nat) (maxW : Nat) (text : List Char) :
    ((wrapLines wf maxW text).map pySplit).flatten = pySplit text := by
  have h := wrapAux_join wf maxW (pySplit text) [] (pySplit_words text)
    (by intro w hw; simp at hw)
  simpa [wrapLines, joinSp] using h

/-- C9: if the first word of the text alone measures wider than the budget
(monotonic measure), the wrapper emits the empty string as its first line;
`draw_wrapped_text` draws it as a blank line at the starting position, and
it consumes one `line_height` of vertical space. -/
theorem first_word_overflow_blank_line (wf : List Char → Nat) (maxW : Nat)
    (text : List Char)
    (hmono : ∀ s t : List Char, s.length ≤ t.length → wf s ≤ wf t)
    (w1 : List Char) (rest : List (List Char))
    (hsplit : pySplit text = w1 :: rest) (hwide : maxW < wf w1)
    (x y lineH : Int) :
    ∃ t, wrapLines wf maxW text = [] :: t ∧
      (draw_wrapped_text wf text x y maxW lineH).1.head? =
        some (Instr.text x y [], y) ∧
      (draw_wrapped_text wf text x y maxW lineH).2 = y - lineH * (1 + t.length) := by
  have hchk : ¬ wf (([] : List Char) ++ w1 ++ [' ']) ≤ maxW := by
    intro hle
    have h1 : wf w1 ≤ wf (([] : List Char) ++ w1 ++ [' ']) := hmono _ _ (by simp)
    omega
  have hlines : wrapLines wf maxW text = [] :: wrapAux wf maxW rest (w1 ++ [' ']) := by
    unfold wrapLines
    rw [hsplit, wrapAux_cons_neg wf maxW rest hchk]
    rfl
  refine ⟨wrapAux wf maxW rest (w1 ++ [' ']), hlines, ?_, ?_⟩
  · unfold draw_wrapped_text
    rw [hlines]
    rfl
  · unfold draw_wrapped_text
    rw [hlines, drawLinesT_snd]
    simp only [List.length_cons]
    push_cast
    ring

/-- C9 witness: concrete overflow of the first word. -/
theorem first_word_overflow_blank_line_witness :
    ∃ t, wrapLines charW 0 (("a").toList) = [] :: t ∧
      (draw_wrapped_text charW (("a").toList) 50 700 0 12).1.head? =
        some (Instr.text 50 700 [], 700) ∧
      (draw_wrapped_text charW (("a").toList) 50 700 0 12).2 =
        700 - 12 * (1 + t.length) :=
  first_word_overflow_blank_line charW 0 (("a").toList) charW_mono
    (("a").toList) [] (by decide) (by decide) 50 700 12

/-- C10: the wrapped line sequence is independent of the font and size
currently set on the canvas — two runs with identical text and budget but
different canvas font state yield identical lines, for every metric
family. -/
theorem wrap_independent_of_canvas_font (sw : String → Nat → List Char → Nat)
    (c1 c2 : CanvasState) (text : List Char) (maxW : Nat) :
    draw_wrapped_text_canvas sw c1 text maxW =
      draw_wrapped_text_canvas sw c2 text maxW := rfl

lemma create_pdf_loop_break (wf : List Char → Nat) (a : NewsRecord)
    (rest : List NewsRecord) (y : Int) (h : needs_break y = true) :
    create_pdf_loop wf (a :: rest) y =
      (Instr.showPage, y) :: (Instr.setFont ("Helvetica") 12, page_top_y)
        :: ((renderArticleT wf a page_top_y).1
        ++ create_pdf_loop wf rest ((renderArticleT wf a page_top_y).2 - 20)) := by
  simp [create_pdf_loop, h]

lemma create_pdf_loop_nobreak (wf : List Char → Nat) (a : NewsRecord)
    (rest : List NewsRecord) (y : Int) (h : needs_break y = false) :
    create_pdf_loop wf (a :: rest) y =
      (renderArticleT wf a y).1
        ++ create_pdf_loop wf rest ((renderArticleT wf a y).2 - 20) := by
  simp [create_pdf_loop, h]

/-- C3 counterexample: at cursor y = 99 the cursor has not fallen below
the claimed near-bottom threshold of 50, yet the page-break test of
news.py line 106 (`y < left_margin + 50`) already fires. -/
theorem page_break_threshold_cex :
    needs_break 99 = true ∧ ¬ ((99 : Int) < 50) := by decide

/-- C3 (amended): for every cursor value y, the page-break test fires
exactly when y has fallen below 100 = left_margin + 50 (not below 50);
whenever it fires, the break that follows emits a page break (new page),
resets the cursor to page_top_y = 742 (page height 792 minus the 50-unit
margin), and the record is rendered from 742. -/
theorem page_break_threshold (y : Int) (wf : List Char → Nat) (a : NewsRecord)
    (rest : List NewsRecord) :
    (needs_break y = true ↔ y < 100) ∧ page_top_y = 742 ∧
      (needs_break y = true →
        create_pdf_loop wf (a :: rest) y =
          (Instr.showPage, y) :: (Instr.setFont ("Helvetica") 12, page_top_y)
            :: ((renderArticleT wf a page_top_y).1
            ++ create_pdf_loop wf rest ((renderArticleT wf a page_top_y).2 - 20))) := by
  refine ⟨?_, rfl, create_pdf_loop_break wf a rest y⟩
  have h100 : left_margin + 50 = 100 := by decide
  simp [needs_break, h100]

/-- C3 witness: the concrete break at cursor 99, where the test fires. -/
theorem page_break_threshold_witness :
    create_pdf_loop charW (recA :: []) 99 =
      (Instr.showPage, 99) :: (Instr.setFont ("Helvetica") 12, page_top_y)
        :: ((renderArticleT charW recA page_top_y).1
        ++ create_pdf_loop charW [] ((renderArticleT charW recA page_top_y).2 - 20)) :=
  (page_break_threshold 99 charW recA []).2.2 (by decide)

/-- C7 counterexample: a feed whose own title is missing yields records
whose `source` field is the string "Unknown Source" — not the empty
string the claim requires for every missing optional field. -/
theorem missing_source_not_empty_cex :
    fetch_news [Except.ok feedNoTitle] = [recU] ∧
      recU.source = ("Unknown Source").toList ∧ recU.source ≠ [] := by decide

/-- C7 (amended): every record produced by `fetch_news` comes from an
entry of a successfully parsed feed; a missing `summary` or `published`
defaults to the empty string, while a missing feed title defaults the
`source` field to "Unknown Source" (never null/absent, but not empty). -/
theorem fetch_news_defaults (feeds : List (Except (List Char) Feed))
    (r : NewsRecord) (hr : r ∈ fetch_news feeds) :
    ∃ f e, Except.ok f ∈ feeds ∧ e ∈ f.entries ∧ r = recordOfEntry f.feedTitle e ∧
      (e.summary = none → r.summary = []) ∧
      (e.published = none → r.published = []) ∧
      (f.feedTitle = none → r.source = ("Unknown Source").toList) := by
  revert hr
  induction feeds with
  | nil => intro hr; simp [fetch_news, fetch_newsL] at hr
  | cons x rest ih =>
      intro hr
      cases x with
      | error m =>
          rw [show fetch_news (Except.error m :: rest) = fetch_news rest from rfl] at hr
          obtain ⟨f, e, hf, he, hre, h1, h2, h3⟩ := ih hr
          exact ⟨f, e, List.mem_cons_of_mem _ hf, he, hre, h1, h2, h3⟩
      | ok f =>
          rw [show fetch_news (Except.ok f :: rest) =
            f.entries.map (recordOfEntry f.feedTitle) ++ fetch_news rest from rfl] at hr
          rcases List.mem_append.mp hr with h | h
          · obtain ⟨e, he, hre⟩ := List.mem_map.mp h
            refine ⟨f, e, List.mem_cons_self _ _, he, hre.symm, ?_, ?_, ?_⟩
            · intro hs; rw [← hre]; simp [recordOfEntry, hs]
            · intro hs; rw [← hre]; simp [recordOfEntry, hs]
            · intro hs; rw [← hre]; simp [recordOfEntry, hs]
          · obtain ⟨f', e, hf, he, hre, h1, h2, h3⟩ := ih h
            exact ⟨f', e, List.mem_cons_of_mem _ hf, he, hre, h1, h2, h3⟩

/-- C7 witness: the defaults at a concrete feed with all optionals
missing. -/
theorem fetch_news_defaults_witness :
    ∃ f e, (Except.ok f : Except (List Char) Feed) ∈ [Except.ok feedNoTitle] ∧
      e ∈ f.entries ∧
      recU = recordOfEntry f.feedTitle e ∧
      (e.summary = none → recU.summary = []) ∧
      (e.published = none → recU.published = []) ∧
      (f.feedTitle = none → recU.source = ("Unknown Source").toList) :=
  fetch_news_defaults [Except.ok feedNoTitle] recU (by decide)

/-- On entries that all carry title and link, the entry loop never raises
and appends every record. -/
lemma processEntries_total (ft : Option (List Char)) (es : List FeedEntry) :
    processEntries ft (es.map rawOfEntry) = (es.map (recordOfEntry ft), false) := by
  induction es with
  | nil => rfl
  | cons e es ih =>
      have hrec : recordOfRaw ft (rawOfEntry e) = some (recordOfEntry ft e) := rfl
      simp only [List.map_cons, processEntries, hrec, ih]

/-- The restricted model `fetch_newsL` is the raise-free special case of
the general model: on feeds whose entries never raise, both agree. -/
lemma fetch_news_run_agrees (feeds : List (Except (List Char) Feed)) :
    fetch_news_runL (feeds.map (fun x => x.map rawOfFeed)) = fetch_newsL feeds := by
  induction feeds with
  | nil => rfl
  | cons x rest ih =>
      cases x with
      | error m =>
          have h : fetch_news_runL
              (((Except.error m : Except (List Char) Feed) :: rest).map
                (fun x => x.map rawOfFeed)) =
              ((fetch_news_runL (rest.map (fun x => x.map rawOfFeed))).1,
               m :: (fetch_news_runL (rest.map (fun x => x.map rawOfFeed))).2) := rfl
          rw [h, ih]
          rfl
      | ok f =>
          have h : fetch_news_runL
              (((Except.ok f : Except (List Char) Feed) :: rest).map
                (fun x => x.map rawOfFeed)) =
              ((processEntries f.feedTitle (f.entries.map rawOfEntry)).1
                 ++ (fetch_news_runL (rest.map (fun x => x.map rawOfFeed))).1,
               if (processEntries f.feedTitle (f.entries.map rawOfEntry)).2 then
                 entryErrMsg :: (fetch_news_runL (rest.map (fun x => x.map rawOfFeed))).2
               else (fetch_news_runL (rest.map (fun x => x.map rawOfFeed))).2) := rfl
          rw [h, ih, processEntries_total f.feedTitle f.entries]
          rfl

lemma fetch_news_runL_append (xs ys : List (Except (List Char) RawFeed)) :
    fetch_news_runL (xs ++ ys) =
      ((fetch_news_runL xs).1 ++ (fetch_news_runL ys).1,
       (fetch_news_runL xs).2 ++ (fetch_news_runL ys).2) := by
  induction xs with
  | nil => simp [fetch_news_runL]
  | cons x rest ih =>
      cases x with
      | error m => simp [fetch_news_runL, ih]
      | ok f =>
          by_cases hp : (processEntries f.feedTitle f.entries).2 = true
          · simp [fetch_news_runL, ih, hp]
          · simp [fetch_news_runL, ih, hp]

/-- C8 counterexample: the per-feed `try` wraps the incremental entry
loop, so a feed that parses, yields one record, and then raises on its
second entry (missing `title`) contributes ONE record — not the zero the
claim requires — while the error is still caught and logged. -/
theorem fetch_news_partial_contribution_cex :
    (processEntries rawPartialFeed.feedTitle rawPartialFeed.entries).2 = true ∧
      fetch_news_run [Except.ok rawPartialFeed] ≠ [] ∧
      (fetch_news_run [Except.ok rawPartialFeed]).length = 1 ∧
      entryErrMsg ∈ (fetch_news_runL [Except.ok rawPartialFeed]).2 := by decide

/-- C8 (amended): every failure is isolated to its source and never
propagated (`fetch_news_run` is total into a plain list): all other
sources are processed and their records returned in order; a source
whose parse raises contributes zero records and its message is logged;
a source whose entry loop raises midway contributes exactly the records
of the entries processed before the raising one, and the error is
logged. -/
theorem fetch_news_failure_isolated (pre post : List (Except (List Char) RawFeed))
    (m : List Char) (f : RawFeed) :
    (fetch_news_run (pre ++ Except.error m :: post) =
        fetch_news_run pre ++ fetch_news_run post ∧
      m ∈ (fetch_news_runL (pre ++ Except.error m :: post)).2) ∧
    (fetch_news_run (pre ++ Except.ok f :: post) =
        fetch_news_run pre ++ (processEntries f.feedTitle f.entries).1
          ++ fetch_news_run post ∧
      ((processEntries f.feedTitle f.entries).2 = true →
        entryErrMsg ∈ (fetch_news_runL (pre ++ Except.ok f :: post)).2)) := by
  refine ⟨⟨?_, ?_⟩, ?_, ?_⟩
  · show (fetch_news_runL (pre ++ Except.error m :: post)).1 = _
    rw [fetch_news_runL_append]
    rfl
  · rw [fetch_news_runL_append]
    refine List.mem_append.mpr (Or.inr ?_)
    show m ∈ m :: (fetch_news_runL post).2
    exact List.mem_cons_self _ _
  · show (fetch_news_runL (pre ++ Except.ok f :: post)).1 = _
    rw [fetch_news_runL_append]
    show (fetch_news_runL pre).1
        ++ ((processEntries f.feedTitle f.entries).1 ++ (fetch_news_runL post).1) = _
    rw [List.append_assoc]
    rfl
  · intro hp
    rw [fetch_news_runL_append]
    refine List.mem_append.mpr (Or.inr ?_)
    show entryErrMsg ∈
      (if (processEntries f.feedTitle f.entries).2 then
        entryErrMsg :: (fetch_news_runL post).2 else (fetch_news_runL post).2)
    rw [hp]
    simp

/-- C8 witness: the isolated mid-loop failure at a concrete feed list. -/
theorem fetch_news_failure_isolated_witness :
    entryErrMsg ∈ (fetch_news_runL ([] ++ Except.ok rawPartialFeed :: [])).2 :=
  (fetch_news_failure_isolated [] [] (("boom").toList) rawPartialFeed).2.2 (by decide)

/-- C5: the renderer emits, in order: the title block, the source block,
the published block, the "Read more" label together with one link
instruction bound to the record's link whose rectangle
`(left_margin, y3-2, left_margin+50, y3+10)` is 50 units wide and 12
units tall, anchored at the cursor `y3`; the summary block is then drawn
from `y3 - 15` (a cursor advance of exactly 15); and the loop continues
with the next record only after a further 20-unit advance. -/
theorem render_article_block_order (wf : List Char → Nat) (a : NewsRecord)
    (y : Int) (rest : List NewsRecord) (hnb : needs_break y = false) :
    ∃ (y1 y2 y3 yEnd : Int) (tT tS tP tSum : List (Instr × Int)),
      draw_wrapped_text wf (("Title: ").toList ++ a.title)
          left_margin y text_width 14 = (tT, y1) ∧
      draw_wrapped_text wf (("Source: ").toList ++ a.source)
          left_margin y1 text_width 12 = (tS, y2) ∧
      draw_wrapped_text wf (("Published: ").toList ++ a.published)
          left_margin y2 text_width 12 = (tP, y3) ∧
      draw_wrapped_text wf (("Summary: ").toList ++ a.summary)
          left_margin (y3 - 15) text_width 12 = (tSum, yEnd) ∧
      renderArticleT wf a y =
        ((Instr.setFont ("Helvetica-Bold") 12, y) :: tT
          ++ (Instr.setFont ("Helvetica") 10, y1) :: tS
          ++ tP
          ++ (Instr.setFont ("Helvetica") 10, y3)
             :: (Instr.text left_margin y3 readMoreText, y3)
             :: (Instr.link a.link left_margin (y3 - 2) (left_margin + 50) (y3 + 10), y3)
             :: tSum,
         yEnd) ∧
      (left_margin + 50) - left_margin = 50 ∧ (y3 + 10) - (y3 - 2) = 12 ∧
      create_pdf_loop wf (a :: rest) y =
        (renderArticleT wf a y).1 ++ create_pdf_loop wf rest (yEnd - 20) := by
  refine ⟨_, _, _, _, _, _, _, _, rfl, rfl, rfl, rfl, rfl, by decide, by ring, ?_⟩
  exact create_pdf_loop_nobreak wf a rest y hnb

/-- C5 witness: the block order at a concrete record and cursor. -/
theorem render_article_block_order_witness :
    ∃ (y1 y2 y3 yEnd : Int) (tT tS tP tSum : List (Instr × Int)),
      draw_wrapped_text charW (("Title: ").toList ++ recA.title)
          left_margin 712 text_width 14 = (tT, y1) ∧
      draw_wrapped_text charW (("Source: ").toList ++ recA.source)
          left_margin y1 text_width 12 = (tS, y2) ∧
      draw_wrapped_text charW (("Published: ").toList ++ recA.published)
          left_margin y2 text_width 12 = (tP, y3) ∧
      draw_wrapped_text charW (("Summary: ").toList ++ recA.summary)
          left_margin (y3 - 15) text_width 12 = (tSum, yEnd) ∧
      renderArticleT charW recA 712 =
        ((Instr.setFont ("Helvetica-Bold") 12, 712) :: tT
          ++ (Instr.setFont ("Helvetica") 10, y1) :: tS
          ++ tP
          ++ (Instr.setFont ("Helvetica") 10, y3)
             :: (Instr.text left_margin y3 readMoreText, y3)
             :: (Instr.link recA.link left_margin (y3 - 2) (left_margin + 50) (y3 + 10), y3)
             :: tSum,
         yEnd) ∧
      (left_margin + 50) - left_margin = 50 ∧ (y3 + 10) - (y3 - 2) = 12 ∧
      create_pdf_loop charW (recA :: []) 712 =
        (renderArticleT charW recA 712).1 ++ create_pdf_loop charW [] (yEnd - 20) :=
  render_article_block_order charW recA 712 [] (by decide)

lemma wrapLines_one_word (wf : List Char → Nat) (maxW : Nat) (text w1 : List Char)
    (hsplit : pySplit text = [w1])
    (h1 : wf (([] : List Char) ++ w1 ++ [' ']) ≤ maxW) :
    wrapLines wf maxW text = [pyStrip (([] : List Char) ++ w1 ++ [' '])] := by
  unfold wrapLines
  rw [hsplit, wrapAux_cons_pos wf maxW _ h1, wrapAux_nil_neg wf maxW (by simp)]

lemma wrapLines_two_words (wf : List Char → Nat) (maxW : Nat) (text w1 w2 : List Char)
    (hsplit : pySplit text = [w1, w2])
    (h1 : wf (([] : List Char) ++ w1 ++ [' ']) ≤ maxW)
    (h2 : wf ((([] : List Char) ++ w1 ++ [' ']) ++ w2 ++ [' ']) ≤ maxW) :
    wrapLines wf maxW text = [pyStrip ((([] : List Char) ++ w1 ++ [' ']) ++ w2 ++ [' '])] := by
  unfold wrapLines
  rw [hsplit, wrapAux_cons_pos wf maxW _ h1, wrapAux_cons_pos wf maxW _ h2,
      wrapAux_nil_neg wf maxW (by simp)]

/-- C6 counterexample: in the assembler's output for the single record
(under the approximate one-unit-per-character width model, with which
every block here fits), no drawn line has the 9-character content
"Summary: " — the wrapper strips the accumulator, so the prefix-only
summary line is "Summary:"; the claimed trailing-space line never
appears. -/
theorem assembler_single_record_cex :
    (create_pdf charW [recA]).countP
        (fun p => textHasContent p.1 (("Summary: ").toList)) = 0 ∧
      (create_pdf charW [recA]).countP
        (fun p => textHasContent p.1 (("Summary:").toList)) = 1 := by decide

/-- C6 (amended): for the single record {title "A", link "http://x",
summary "", published "", source "S"}, under any width measure that lets
these short blocks pass the width check, the assembler's output is
exactly: one document title block, a title line "Title: A", a source line
"Source: S", a published line "Published:", the "Read more" label with
one link instruction bound verbatim to "http://x", and exactly one
summary line whose content is "Summary:" (the prefix stripped of its
trailing space). -/
theorem assembler_single_record (wf : List Char → Nat)
    (h1 : wf (("Title: ").toList) ≤ text_width)
    (h2 : wf (("Title: A ").toList) ≤ text_width)
    (h3 : wf (("Source: ").toList) ≤ text_width)
    (h4 : wf (("Source: S ").toList) ≤ text_width)
    (h5 : wf (("Published: ").toList) ≤ text_width)
    (h6 : wf (("Summary: ").toList) ≤ text_width) :
    create_pdf wf [recA] =
      [(Instr.setFont ("Helvetica-Bold") 16, 742),
       (Instr.text 50 742 (("News Articles").toList), 742),
       (Instr.setFont ("Helvetica-Bold") 12, 712),
       (Instr.text 50 712 (("Title: A").toList), 712),
       (Instr.setFont ("Helvetica") 10, 698),
       (Instr.text 50 698 (("Source: S").toList), 698),
       (Instr.text 50 686 (("Published:").toList), 686),
       (Instr.setFont ("Helvetica") 10, 674),
       (Instr.text 50 674 (("Read more").toList), 674),
       (Instr.link (("http://x").toList) 50 672 100 684, 674),
       (Instr.text 50 659 (("Summary:").toList), 659)] := by
  have e1 : wrapLines wf text_width (("Title: ").toList ++ recA.title) =
      [("Title: A").toList] := by
    rw [wrapLines_two_words wf text_width _ (("Title:").toList) (("A").toList)
        (by decide)
        (by rw [show ([] : List Char) ++ ("Title:").toList ++ [' '] = ("Title: ").toList
              from by decide]
            exact h1)
        (by rw [show (([] : List Char) ++ ("Title:").toList ++ [' '])
                ++ ("A").toList ++ [' '] = ("Title: A ").toList from by decide]
            exact h2)]
    decide
  have e2 : wrapLines wf text_width (("Source: ").toList ++ recA.source) =
      [("Source: S").toList] := by
    rw [wrapLines_two_words wf text_width _ (("Source:").toList) (("S").toList)
        (by decide)
        (by rw [show ([] : List Char) ++ ("Source:").toList ++ [' '] = ("Source: ").toList
              from by decide]
            exact h3)
        (by rw [show (([] : List Char) ++ ("Source:").toList ++ [' '])
                ++ ("S").toList ++ [' '] = ("Source: S ").toList from by decide]
            exact h4)]
    decide
  have e3 : wrapLines wf text_width (("Published: ").toList ++ recA.published) =
      [("Published:").toList] := by
    rw [wrapLines_one_word wf text_width _ (("Published:").toList)
        (by decide)
        (by rw [show ([] : List Char) ++ ("Published:").toList ++ [' ']
              = ("Published: ").toList from by decide]
            exact h5)]
    decide
  have e4 : wrapLines wf text_width (("Summary: ").toList ++ recA.summary) =
      [("Summary:").toList] := by
    rw [wrapLines_one_word wf text_width _ (("Summary:").toList)
        (by decide)
        (by rw [show ([] : List Char) ++ ("Summary:").toList ++ [' ']
              = ("Summary: ").toList from by decide]
            exact h6)]
    decide
  have hnb : needs_break (page_top_y - 30) = false := by decide
  simp only [create_pdf, create_pdf_loop, hnb, Bool.false_eq_true, if_false,
    renderArticleT, draw_wrapped_text, e1, e2, e3, e4]
  decide

/-- C6 witness: the amended scenario at the approximate width model. -/
theorem assembler_single_record_witness :
    create_pdf charW [recA] =
      [(Instr.setFont ("Helvetica-Bold") 16, 742),
       (Instr.text 50 742 (("News Articles").toList), 742),
       (Instr.setFont ("Helvetica-Bold") 12, 712),
       (Instr.text 50 712 (("Title: A").toList), 712),
       (Instr.setFont ("Helvetica") 10, 698),
       (Instr.text 50 698 (("Source: S").toList), 698),
       (Instr.text 50 686 (("Published:").toList), 686),
       (Instr.setFont ("Helvetica") 10, 674),
       (Instr.text 50 674 (("Read more").toList), 674),
       (Instr.link (("http://x").toList) 50 672 100 684, 674),
       (Instr.text 50 659 (("Summary:").toList), 659)] :=
  assembler_single_record charW (by decide) (by decide) (by decide) (by decide)
    (by decide) (by decide)

lemma mem_of_mem_getLast' {α : Type} {l : List α} {x : α} (h : x ∈ l.getLast?) :
    x ∈ l := by
  obtain ⟨hne, hx⟩ := List.mem_getLast?_eq_getLast h
  rw [hx]
  exact List.getLast_mem hne

lemma draws_append (t1 t2 : List (Instr × Int)) :
    draws (t1 ++ t2) = draws t1 ++ draws t2 := by
  simp [draws]

lemma pageTrace_append (t1 t2 : List (Instr × Int)) :
    pageTrace (t1 ++ t2) = pageTrace t1 ++ pageTrace t2 := by
  simp [pageTrace]

lemma pageTrace_eq_draws {t : List (Instr × Int)}
    (h : ∀ p ∈ t, isShowPage p.1 = false) : pageTrace t = draws t := by
  unfold pageTrace draws
  apply List.filter_congr
  intro p hp
  simp [h p hp]

lemma pageTrace_cons_draw (i : Instr) (hi : isDraw i = true) (cy : Int)
    (t : List (Instr × Int)) :
    pageTrace ((i, cy) :: t) = (i, cy) :: pageTrace t := by
  simp [pageTrace, hi]

lemma pageTrace_cons_showPage (cy : Int) (t : List (Instr × Int)) :
    pageTrace ((Instr.showPage, cy) :: t) = (Instr.showPage, cy) :: pageTrace t := by
  simp [pageTrace, isShowPage, isDraw]

lemma pageTrace_cons_setFont (f : String) (n : Nat) (cy : Int)
    (t : List (Instr × Int)) :
    pageTrace ((Instr.setFont f n, cy) :: t) = pageTrace t := by
  simp [pageTrace, isShowPage, isDraw]

lemma isShowPage_eq_false_of_isDraw {i : Instr} (h : isDraw i = true) :
    isShowPage i = false := by
  cases i <;> simp [isDraw, isShowPage] at h ⊢

lemma stepOk_eq_Rdraw (p q : Instr × Int) (hp : isShowPage p.1 = false)
    (hq : isShowPage q.1 = false) : stepOk p q = Rdraw p q := by
  simp [stepOk, hp, hq]

lemma stepOk_of_showPage_snd {p q : Instr × Int} (hq : isShowPage q.1 = true) :
    stepOk p q := by
  simp [stepOk, hq]

lemma stepOk_after_showPage {p q : Instr × Int} (hp : isShowPage p.1 = true)
    (hq : isShowPage q.1 = false) (h : q.2 = page_top_y) : stepOk p q := by
  simp [stepOk, hp, hq, h]

lemma chain_stepOk_of_Rdraw : ∀ (t : List (Instr × Int)),
    (∀ p ∈ t, isShowPage p.1 = false) →
    List.Chain' Rdraw t → List.Chain' stepOk t := by
  intro t
  induction t with
  | nil => intro _ _; exact List.chain'_nil
  | cons p t ih =>
      intro hns hch
      rcases t with _ | ⟨q, t2⟩
      · exact List.chain'_singleton p
      · rw [List.chain'_cons] at hch
        rw [List.chain'_cons]
        have hq : isShowPage q.1 = false := hns q (by simp)
        have hp : isShowPage p.1 = false := hns p (by simp)
        constructor
        · have hs : stepOk p q = Rdraw p q := by simp [stepOk, hq, hp]
          rw [hs]
          exact hch.1
        · exact ih (fun r hr => hns r (List.mem_cons_of_mem _ hr)) hch.2

lemma Seg_nil (y : Int) : Seg [] y y := by
  refine ⟨?_, ?_, ?_⟩
  · show List.Chain' Rdraw (draws [])
    exact List.chain'_nil
  · intro p hp; simp [draws] at hp
  · intro p hp; simp at hp

lemma Seg_consNonDraw {t : List (Instr × Int)} {y yEnd : Int} (i : Instr) (cy : Int)
    (hi : isDraw i = false) (hp : isShowPage i = false)
    (s : Seg t y yEnd) : Seg ((i, cy) :: t) y yEnd := by
  have hd : draws ((i, cy) :: t) = draws t := by simp [draws, hi]
  refine ⟨?_, ?_, ?_⟩
  · rw [hd]; exact s.chain
  · rw [hd]; exact s.bounds
  · intro p hpm
    rcases List.mem_cons.mp hpm with h | h
    · subst h; exact hp
    · exact s.noPage p h

lemma Seg_glue {t1 t2 : List (Instr × Int)} {y y1 y2 : Int}
    (s1 : Seg t1 y y1) (s2 : Seg t2 y1 y2) (h21 : y2 ≤ y1) (h1y : y1 ≤ y) :
    Seg (t1 ++ t2) y y2 := by
  refine ⟨?_, ?_, ?_⟩
  · rw [draws_append]
    refine List.Chain'.append s1.chain s2.chain ?_
    intro a ha b hb
    have ham : a ∈ draws t1 := mem_of_mem_getLast' ha
    have hbm : b ∈ draws t2 := List.mem_of_mem_head? hb
    have h1 := s1.bounds a ham
    have h2 := s2.bounds b hbm
    left
    exact lt_of_le_of_lt h2.2 h1.1
  · rw [draws_append]
    intro p hp
    rcases List.mem_append.mp hp with h | h
    · have := s1.bounds p h
      exact ⟨lt_of_le_of_lt h21 this.1, this.2⟩
    · have := s2.bounds p h
      exact ⟨this.1, le_trans this.2 h1y⟩
  · intro p hp
    rcases List.mem_append.mp hp with h | h
    · exact s1.noPage p h
    · exact s2.noPage p h

lemma Seg_linkBlock (url : List Char) (y3 : Int) :
    Seg [(Instr.setFont ("Helvetica") 10, y3),
         (Instr.text left_margin y3 readMoreText, y3),
         (Instr.link url left_margin (y3 - 2) (left_margin + 50) (y3 + 10), y3)]
        y3 (y3 - 15) := by
  have hd : draws [(Instr.setFont ("Helvetica") 10, y3),
      (Instr.text left_margin y3 readMoreText, y3),
      (Instr.link url left_margin (y3 - 2) (left_margin + 50) (y3 + 10), y3)] =
      [(Instr.text left_margin y3 readMoreText, y3),
       (Instr.link url left_margin (y3 - 2) (left_margin + 50) (y3 + 10), y3)] := by
    simp [draws, isDraw]
  refine ⟨?_, ?_, ?_⟩
  · rw [hd]
    refine List.chain'_pair.mpr ?_
    right
    exact ⟨rfl, by simp [rmPair]⟩
  · rw [hd]
    intro p hp
    rcases List.mem_cons.mp hp with h | h
    · subst h; exact ⟨by omega, le_refl _⟩
    · simp at h; subst h; exact ⟨by omega, le_refl _⟩
  · intro p hp
    simp at hp
    rcases hp with h | h | h <;> subst h <;> rfl

lemma drawLinesT_Seg (x lineH : Int) (hl : 0 < lineH) :
    ∀ (ls : List (List Char)) (y : Int),
      Seg (drawLinesT x lineH ls y).1 y (drawLinesT x lineH ls y).2 ∧
      (drawLinesT x lineH ls y).2 ≤ y ∧
      (ls ≠ [] → ∃ c t, (drawLinesT x lineH ls y).1 = (Instr.text x y c, y) :: t) := by
  intro ls
  induction ls with
  | nil =>
      intro y
      refine ⟨Seg_nil y, le_refl y, ?_⟩
      intro h; exact absurd rfl h
  | cons l ls ih =>
      intro y
      obtain ⟨ihSeg, ihLe, _⟩ := ih (y - lineH)
      have h1 : (drawLinesT x lineH (l :: ls) y).1 =
          (Instr.text x y l, y) :: (drawLinesT x lineH ls (y - lineH)).1 := rfl
      have h2 : (drawLinesT x lineH (l :: ls) y).2 =
          (drawLinesT x lineH ls (y - lineH)).2 := rfl
      rw [h1, h2]
      have hdr : draws ((Instr.text x y l, y) :: (drawLinesT x lineH ls (y - lineH)).1)
          = (Instr.text x y l, y) :: draws (drawLinesT x lineH ls (y - lineH)).1 := by
        simp [draws, isDraw]
      refine ⟨⟨?_, ?_, ?_⟩, ?_, ?_⟩
      · rw [hdr, List.chain'_cons']
        constructor
        · intro b hb
          have hbm := List.mem_of_mem_head? hb
          have hbb := ihSeg.bounds b hbm
          left
          exact lt_of_le_of_lt hbb.2 (by omega)
        · exact ihSeg.chain
      · rw [hdr]
        intro p hp
        rcases List.mem_cons.mp hp with h | h
        · subst h
          exact ⟨lt_of_le_of_lt ihLe (by omega), le_refl _⟩
        · have := ihSeg.bounds p h
          exact ⟨this.1, le_trans this.2 (by omega)⟩
      · intro p hp
        rcases List.mem_cons.mp hp with h | h
        · subst h; rfl
        · exact ihSeg.noPage p h
      · exact le_trans ihLe (by omega)
      · intro _
        exact ⟨l, (drawLinesT x lineH ls (y - lineH)).1, rfl⟩

lemma draw_wrapped_text_Seg (wf : List Char → Nat) (text : List Char)
    (x y lineH : Int) (maxW : Nat) (hl : 0 < lineH) :
    Seg (draw_wrapped_text wf text x y maxW lineH).1 y
        (draw_wrapped_text wf text x y maxW lineH).2 ∧
      (draw_wrapped_text wf text x y maxW lineH).2 ≤ y ∧
      (wrapLines wf maxW text ≠ [] → ∃ c t,
        (draw_wrapped_text wf text x y maxW lineH).1 = (Instr.text x y c, y) :: t) :=
  drawLinesT_Seg x lineH hl (wrapLines wf maxW text) y

lemma wrapAux_ne_nil (wf : List Char → Nat) (maxW : Nat) :
    ∀ (ws : List (List Char)) (line : List Char), line ≠ [] →
      wrapAux wf maxW ws line ≠ [] := by
  intro ws
  induction ws with
  | nil =>
      intro line h
      rw [wrapAux_nil_neg wf maxW h]
      simp
  | cons w ws ih =>
      intro line h
      by_cases hfit : wf (line ++ w ++ [' ']) ≤ maxW
      · rw [wrapAux_cons_pos wf maxW ws hfit]
        exact ih (line ++ w ++ [' ']) (by simp)
      · rw [wrapAux_cons_neg wf maxW ws hfit]
        simp

lemma wrapLines_ne_nil_of_split (wf : List Char → Nat) (maxW : Nat) (text : List Char)
    (w : List Char) (ws : List (List Char)) (hsplit : pySplit text = w :: ws) :
    wrapLines wf maxW text ≠ [] := by
  unfold wrapLines
  rw [hsplit]
  by_cases hfit : wf (([] : List Char) ++ w ++ [' ']) ≤ maxW
  · rw [wrapAux_cons_pos wf maxW ws hfit]
    exact wrapAux_ne_nil wf maxW ws _ (by simp)
  · rw [wrapAux_cons_neg wf maxW ws hfit]
    simp

lemma pySplit_head_ne_nil (c : Char) (s x : List Char) (hc : isWsChar c = false) :
    pySplit ((c :: s) ++ x) ≠ [] := by
  rw [show (c :: s) ++ x = c :: (s ++ x) from rfl]
  exact pySplit_cons_ne_nil c _ hc

lemma wrapLines_title_ne_nil (wf : List Char → Nat) (x : List Char) :
    wrapLines wf text_width (("Title: ").toList ++ x) ≠ [] := by
  have ht : ("Title: ").toList = 'T' :: ("itle: ").toList := by decide
  have hne : pySplit (("Title: ").toList ++ x) ≠ [] := by
    rw [ht]
    exact pySplit_head_ne_nil 'T' _ x (by decide)
  obtain ⟨w, ws, hws⟩ := List.exists_cons_of_ne_nil hne
  exact wrapLines_ne_nil_of_split wf text_width _ w ws hws

/-- The article body is one page-break-free segment: its drawing cursors
lie strictly between the post-article cursor and the entry cursor, the
article ends strictly lower than it began, and the first drawn
instruction is the first title line at the entry cursor. -/
lemma renderArticleT_Seg (wf : List Char → Nat) (a : NewsRecord) (y : Int) :
    Seg (renderArticleT wf a y).1 y (renderArticleT wf a y).2 ∧
      (renderArticleT wf a y).2 < y ∧
      (∃ c t, draws (renderArticleT wf a y).1 =
        (Instr.text left_margin y c, y) :: t) := by
  obtain ⟨segT, leT, headT⟩ := draw_wrapped_text_Seg wf
    (("Title: ").toList ++ a.title) left_margin y 14 text_width (by omega)
  obtain ⟨segS, leS, _⟩ := draw_wrapped_text_Seg wf
    (("Source: ").toList ++ a.source) left_margin
    (draw_wrapped_text wf (("Title: ").toList ++ a.title)
      left_margin y text_width 14).2 12 text_width (by omega)
  obtain ⟨segP, leP, _⟩ := draw_wrapped_text_Seg wf
    (("Published: ").toList ++ a.published) left_margin
    (draw_wrapped_text wf (("Source: ").toList ++ a.source) left_margin
      (draw_wrapped_text wf (("Title: ").toList ++ a.title)
        left_margin y text_width 14).2 text_width 12).2 12 text_width (by omega)
  obtain ⟨segU, leU, _⟩ := draw_wrapped_text_Seg wf
    (("Summary: ").toList ++ a.summary) left_margin
    ((draw_wrapped_text wf (("Published: ").toList ++ a.published) left_margin
      (draw_wrapped_text wf (("Source: ").toList ++ a.source) left_margin
        (draw_wrapped_text wf (("Title: ").toList ++ a.title)
          left_margin y text_width 14).2 text_width 12).2 text_width 12).2 - 15)
    12 text_width (by omega)
  obtain ⟨c, t, htT⟩ := headT (wrapLines_title_ne_nil wf a.title)
  set T := draw_wrapped_text wf (("Title: ").toList ++ a.title)
    left_margin y text_width 14 with hTdef
  set S := draw_wrapped_text wf (("Source: ").toList ++ a.source)
    left_margin T.2 text_width 12 with hSdef
  set P := draw_wrapped_text wf (("Published: ").toList ++ a.published)
    left_margin S.2 text_width 12 with hPdef
  set U := draw_wrapped_text wf (("Summary: ").toList ++ a.summary)
    left_margin (P.2 - 15) text_width 12 with hUdef
  have hfst : (renderArticleT wf a y).1 =
      (((Instr.setFont ("Helvetica-Bold") 12, y) :: T.1
        ++ (Instr.setFont ("Helvetica") 10, T.2) :: S.1)
        ++ P.1)
        ++ ((Instr.setFont ("Helvetica") 10, P.2)
           :: (Instr.text left_margin P.2 readMoreText, P.2)
           :: (Instr.link a.link left_margin (P.2 - 2) (left_margin + 50) (P.2 + 10), P.2)
           :: U.1) := rfl
  have hsnd : (renderArticleT wf a y).2 = U.2 := rfl
  have s1 : Seg ((Instr.setFont ("Helvetica-Bold") 12, y) :: T.1) y T.2 :=
    Seg_consNonDraw _ _ rfl rfl segT
  have s2 : Seg ((Instr.setFont ("Helvetica") 10, T.2) :: S.1) T.2 S.2 :=
    Seg_consNonDraw _ _ rfl rfl segS
  have s4 : Seg ((Instr.setFont ("Helvetica") 10, P.2)
      :: (Instr.text left_margin P.2 readMoreText, P.2)
      :: (Instr.link a.link left_margin (P.2 - 2) (left_margin + 50) (P.2 + 10), P.2)
      :: U.1) P.2 U.2 :=
    Seg_glue (Seg_linkBlock a.link P.2) segU leU (by omega)
  have s12 : Seg (((Instr.setFont ("Helvetica-Bold") 12, y) :: T.1)
      ++ (Instr.setFont ("Helvetica") 10, T.2) :: S.1) y S.2 :=
    Seg_glue s1 s2 leS leT
  have s123 : Seg ((((Instr.setFont ("Helvetica-Bold") 12, y) :: T.1)
      ++ (Instr.setFont ("Helvetica") 10, T.2) :: S.1) ++ P.1) y P.2 :=
    Seg_glue s12 segP leP (le_trans leS leT)
  have hUy : U.2 ≤ P.2 := le_trans leU (by omega)
  have sAll : Seg ((renderArticleT wf a y).1) y U.2 := by
    rw [hfst]
    exact Seg_glue s123 s4 hUy (le_trans leP (le_trans leS leT))
  refine ⟨?_, ?_, ?_⟩
  · rw [hsnd]; exact sAll
  · rw [hsnd]
    have : U.2 ≤ P.2 - 15 := leU
    have hP : P.2 ≤ y := le_trans leP (le_trans leS leT)
    omega
  · refine ⟨c, draws t
      ++ (draws ((Instr.setFont ("Helvetica") 10, T.2) :: S.1)
      ++ (draws P.1
      ++ draws ((Instr.setFont ("Helvetica") 10, P.2)
         :: (Instr.text left_margin P.2 readMoreText, P.2)
         :: (Instr.link a.link left_margin (P.2 - 2) (left_margin + 50) (P.2 + 10), P.2)
         :: U.1))), ?_⟩
    rw [hfst, htT]
    simp [draws_append, draws, isDraw]

/-- Loop invariant: the page trace of the record loop is a `stepOk` chain,
and its first element is either a page break or a drawing instruction no
higher than the entry cursor. -/
lemma create_pdf_loop_good (wf : List Char → Nat) :
    ∀ (arts : List NewsRecord) (y : Int),
      List.Chain' stepOk (pageTrace (create_pdf_loop wf arts y)) ∧
      (∀ p, (pageTrace (create_pdf_loop wf arts y)).head? = some p →
        isShowPage p.1 = true ∨ (p.2 ≤ y ∧ isDraw p.1 = true)) := by
  intro arts
  induction arts with
  | nil =>
      intro y
      constructor
      · show List.Chain' stepOk (pageTrace [])
        exact List.chain'_nil
      · intro p hp
        rw [show create_pdf_loop wf [] y = [] from rfl] at hp
        simp [pageTrace] at hp
  | cons a rest ih =>
      intro y
      have main : ∀ y0 : Int,
          List.Chain' stepOk (draws (renderArticleT wf a y0).1
            ++ pageTrace (create_pdf_loop wf rest ((renderArticleT wf a y0).2 - 20))) ∧
          ∀ p, (draws (renderArticleT wf a y0).1
            ++ pageTrace (create_pdf_loop wf rest
                ((renderArticleT wf a y0).2 - 20))).head? = some p →
            p.2 ≤ y0 ∧ isDraw p.1 = true := by
        intro y0
        obtain ⟨segA, hAlt, c, t, hAhead⟩ := renderArticleT_Seg wf a y0
        obtain ⟨ihCh, ihHead⟩ := ih ((renderArticleT wf a y0).2 - 20)
        constructor
        · refine List.Chain'.append ?_ ihCh ?_
          · refine chain_stepOk_of_Rdraw _ ?_ segA.chain
            intro p hp
            exact segA.noPage p (List.mem_of_mem_filter hp)
          · intro x hx b hb
            have hxm : x ∈ draws (renderArticleT wf a y0).1 := mem_of_mem_getLast' hx
            have hxb := segA.bounds x hxm
            have hxn : isShowPage x.1 = false :=
              segA.noPage x (List.mem_of_mem_filter hxm)
            rcases ihHead b hb with hsp | ⟨hble, hbdraw⟩
            · exact stepOk_of_showPage_snd hsp
            · have hbn : isShowPage b.1 = false := isShowPage_eq_false_of_isDraw hbdraw
              rw [stepOk_eq_Rdraw x b hxn hbn]
              left
              have h1 : b.2 ≤ (renderArticleT wf a y0).2 - 20 := hble
              have h2 : (renderArticleT wf a y0).2 < x.2 := hxb.1
              omega
        · intro p hp
          rw [hAhead] at hp
          simp only [List.cons_append, List.head?_cons, Option.some.injEq] at hp
          subst hp
          exact ⟨le_refl _, rfl⟩
      by_cases hnb : needs_break y = true
      · rw [create_pdf_loop_break wf a rest y hnb]
        obtain ⟨segA, hAlt, c, t, hAhead⟩ := renderArticleT_Seg wf a page_top_y
        obtain ⟨mCh, mHead⟩ := main page_top_y
        rw [pageTrace_cons_showPage, pageTrace_cons_setFont, pageTrace_append,
            pageTrace_eq_draws segA.noPage]
        constructor
        · rw [List.chain'_cons']
          constructor
          · intro b hb
            rw [hAhead] at hb
            simp only [List.cons_append, List.head?_cons, Option.mem_def,
              Option.some.injEq] at hb
            subst hb
            exact stepOk_after_showPage rfl rfl rfl
          · exact mCh
        · intro p hp
          simp only [List.head?_cons, Option.some.injEq] at hp
          subst hp
          left
          rfl
      · have hnb2 : needs_break y = false := by simpa using hnb
        rw [create_pdf_loop_nobreak wf a rest y hnb2]
        obtain ⟨segA, hAlt, c, t, hAhead⟩ := renderArticleT_Seg wf a y
        obtain ⟨mCh, mHead⟩ := main y
        rw [pageTrace_append, pageTrace_eq_draws segA.noPage]
        constructor
        · exact mCh
        · intro p hp
          right
          exact mHead p hp

/-- C4 counterexample: in the one-page run on a single record, the cursor
does NOT strictly decrease between every pair of consecutive drawing
instructions — the "Read more" label and the link bound below it are
emitted at the same cursor value. -/
theorem cursor_strict_decrease_cex :
    ¬ List.Chain' (fun p q : Instr × Int => q.2 < p.2)
        (draws (create_pdf charW [recA])) := by
  have h : draws (create_pdf charW [recA]) =
      [(Instr.text 50 742 (("News Articles").toList), 742),
       (Instr.text 50 712 (("Title: A").toList), 712),
       (Instr.text 50 698 (("Source: S").toList), 698),
       (Instr.text 50 686 (("Published:").toList), 686),
       (Instr.text 50 674 (("Read more").toList), 674),
       (Instr.link (("http://x").toList) 50 672 100 684, 674),
       (Instr.text 50 659 (("Summary:").toList), 659)] := by decide
  rw [h]
  intro hch
  simp only [List.chain'_cons, List.chain'_singleton, and_true] at hch
  omega

/-- C4 (amended): over the whole document trace restricted to drawing
instructions and page breaks, for every width measure and every record
list: within a page the cursor strictly decreases between consecutive
drawing instructions except that the "Read more" label and its link share
one cursor value; immediately after a page break the next drawing
instruction is emitted at the page-top cursor `page_top_y` = 742; and the
document's first drawing instruction (the document title) is at 742. -/
theorem cursor_page_invariant (wf : List Char → Nat) (news : List NewsRecord) :
    List.Chain' stepOk (pageTrace (create_pdf wf news)) ∧
      (pageTrace (create_pdf wf news)).head? =
        some (Instr.text left_margin page_top_y (("News Articles").toList),
          page_top_y) := by
  obtain ⟨lCh, lHead⟩ := create_pdf_loop_good wf news (page_top_y - 30)
  have hpt : pageTrace (create_pdf wf news) =
      (Instr.text left_margin page_top_y (("News Articles").toList), page_top_y)
        :: pageTrace (create_pdf_loop wf news (page_top_y - 30)) := by
    show pageTrace ((Instr.setFont ("Helvetica-Bold") 16, page_top_y)
      :: (Instr.text left_margin page_top_y (("News Articles").toList), page_top_y)
      :: create_pdf_loop wf news (page_top_y - 30)) = _
    rw [pageTrace_cons_setFont,
        pageTrace_cons_draw (Instr.text left_margin page_top_y
          (("News Articles").toList)) rfl]
  rw [hpt]
  constructor
  · rw [List.chain'_cons']
    constructor
    · intro b hb
      rcases lHead b hb with hsp | ⟨hble, hbdraw⟩
      · exact stepOk_of_showPage_snd hsp
      · have hbn : isShowPage b.1 = false := isShowPage_eq_false_of_isDraw hbdraw
        rw [stepOk_eq_Rdraw (Instr.text left_margin page_top_y (("News Articles").toList), page_top_y) b rfl hbn]
        left
        show b.2 < page_top_y
        have h30 : page_top_y - 30 < page_top_y := by omega
        exact lt_of_le_of_lt hble h30
    · exact lCh
  · rfl

end News
